import Mathlib

/-!
Verification development for TAKtick (src/TAKtick.c), a single-threaded TCP
relay server.  The server keeps a registry of participants (one per accepted
connection); each participant owns a growable byte buffer into which
non-blocking receives append data; a framer extracts terminator-delimited
messages and broadcasts each one to every participant.

The embedding below models the core state machine shallowly:
  * bytes are `Char` (the C code works on `char` buffers),
  * a participant's `buffer` holds exactly the `length` valid bytes of the C
    buffer (so `length` is `buffer.length`); `max_length` tracks the
    allocated capacity separately, as in the C struct,
  * `recv` results are modelled by `RecvResult` (positive read carrying the
    bytes, would-block, orderly close, other I/O error),
  * `send` outcomes are modelled by an oracle `out : Participant → Int`
    giving the return value of `send` for each targeted participant.
-/

namespace TAKtick

/-- Model of `static const char *terminator_string = "</event>"` (TAKtick.c line 61). -/
def terminator_string : List Char := "</event>".toList

/-- Model of `static const int terminator_length = 8` (TAKtick.c line 62). -/
def terminator_length : Nat := 8

/-- Model of `static const int buffer_chunk_size = 65536` (TAKtick.c line 63). -/
def buffer_chunk_size : Nat := 65536

/-- One entry of `struct participant_list_struct` (TAKtick.c lines 71-78).
`buffer` holds the `length` valid bytes (`length = buffer.length`);
`max_length` is the allocated capacity. -/
structure Participant where
  socket : Int
  closed : Bool
  buffer : List Char
  max_length : Nat
deriving DecidableEq, Repr

/-- Model of `struct server_context_type` (TAKtick.c lines 65-69): the participant
list together with the separately maintained `participant_count`. -/
structure ServerContext where
  participant_list : List Participant
  participant_count : Int
deriving DecidableEq, Repr

/-- The scanning loop of the bounded search `memmem` (TAKtick.c lines
443-446): advance the haystack one byte at a time while at least
`needle.length` bytes remain (`haystacklen >= needlelen`), returning the
index of the first position where the needle matches (`memcmp` over
`needlelen` bytes is `List.isPrefixOf`).  `idx` is the number of bytes
already skipped. -/
def memmem_from (needle : List Char) : List Char → Nat → Option Nat
  | [], idx => if needle.length = 0 then some idx else none
  | a :: t, idx =>
      if needle.length ≤ (a :: t).length then
        if needle.isPrefixOf (a :: t) then some idx
        else memmem_from needle t (idx + 1)
      else none

/-- Model of `memmem` (TAKtick.c lines 436-448): `none` models the NULL return for an
empty haystack or needle, otherwise the offset of the first occurrence. -/
def memmem (haystack needle : List Char) : Option Nat :=
  if haystack.length = 0 ∨ needle.length = 0 then none
  else memmem_from needle haystack 0

/-- The scan start computed in `parse_data` (TAKtick.c line 359):
`onset = (length > terminator_length) ? (length - terminator_length) : 0`,
where `length` is the buffer length before `numRead` is added. -/
def scan_onset (length_before : Nat) : Nat :=
  if length_before > terminator_length then length_before - terminator_length else 0

/-- The capacity-growth policy of `parse_data` (TAKtick.c lines 336-342):
if `max_length <= 0` or `length + buffer_chunk_size > max_length`, the new
`max_length` is `buffer_chunk_size` when currently unset and twice the
current value otherwise; the buffer contents are preserved by `realloc`. -/
def grow_max_length (length max_length : Nat) : Nat :=
  if max_length = 0 ∨ length + buffer_chunk_size > max_length then
    (if max_length = 0 then buffer_chunk_size else max_length * 2)
  else max_length

/-- The `default` branch of the `switch` in `parse_data` (TAKtick.c lines
358-368) for one successful receive of `chunk`: compute `onset` from the
length before the receive, append the received bytes, search
`buffer[onset .. length)` for the terminator; on a hit, emit
`buffer[0 .. size)` where `size = onset + i + terminator_length`, and
left-compact the buffer (`length -= size; memmove`).  Returns the updated
participant and the emitted message, if any. -/
def parse_receive (p : Participant) (chunk : List Char) :
    Participant × Option (List Char) :=
  match memmem ((p.buffer ++ chunk).drop (scan_onset p.buffer.length)) terminator_string with
  | some i =>
      ({ p with
          buffer := (p.buffer ++ chunk).drop
            (scan_onset p.buffer.length + i + terminator_length) },
       some ((p.buffer ++ chunk).take (scan_onset p.buffer.length + i + terminator_length)))
  | none => ({ p with buffer := p.buffer ++ chunk }, none)

/-- The possible outcomes of one `recv` call in `parse_data`
(TAKtick.c lines 344-357): a positive read carrying the received bytes,
`-1` with `EAGAIN` (would block), `0` (orderly remote close), or `-1` with
any other `errno` (I/O error). -/
inductive RecvResult where
  | data (chunk : List Char)
  | wouldBlock
  | orderlyClose
  | ioError
deriving DecidableEq, Repr

/-- One iteration of the `do`-`while` loop of `parse_data` (TAKtick.c lines
334-371): ensure spare capacity, perform one receive, and dispatch on its
result.  The `Bool` is the loop condition `numRead > 0`.  A `data []` event
is `numRead = 0` and is treated like an orderly close, as in the `switch`. -/
def drain_step (p : Participant) (r : RecvResult) :
    Participant × Option (List Char) × Bool :=
  let p₁ : Participant :=
    { p with max_length := grow_max_length p.buffer.length p.max_length }
  match r with
  | .wouldBlock => (p₁, none, false)
  | .orderlyClose => ({ p₁ with closed := true }, none, false)
  | .ioError => ({ p₁ with closed := true }, none, false)
  | .data chunk =>
      if chunk.length = 0 then ({ p₁ with closed := true }, none, false)
      else
        match parse_receive p₁ chunk with
        | (p₂, m) => (p₂, m, true)

/-- A whole drain cycle: the `do`-`while` loop of `parse_data` run against a
sequence of successive `recv` results, collecting the emitted messages in
order.  The loop repeats exactly while `numRead > 0`. -/
def drain_cycle (p : Participant) : List RecvResult → Participant × List (List Char)
  | [] => (p, [])
  | r :: rest =>
      match drain_step p r with
      | (p', m, true) =>
          match drain_cycle p' rest with
          | (p'', msgs) => (p'', m.toList ++ msgs)
      | (p', m, false) => (p', m.toList)

/-- The bytes that one drain cycle actually appends to the buffer: the
concatenation of the received chunks up to the event that ends the loop. -/
def consumed_input : List RecvResult → List Char
  | [] => []
  | .data chunk :: rest => if chunk.length = 0 then [] else chunk ++ consumed_input rest
  | .wouldBlock :: _ => []
  | .orderlyClose :: _ => []
  | .ioError :: _ => []

/-- The number of positive-read events before the event that ends the loop. -/
def data_event_count : List RecvResult → Nat
  | [] => 0
  | .data chunk :: rest => if chunk.length = 0 then 0 else 1 + data_event_count rest
  | .wouldBlock :: _ => 0
  | .orderlyClose :: _ => 0
  | .ioError :: _ => 0

/-- Number of occurrences of the terminator in a byte sequence (the `K` of
the framing property): positions at which `terminator_string` starts. -/
def count_terminators : List Char → Nat
  | [] => 0
  | c :: rest =>
      (if terminator_string.isPrefixOf (c :: rest) then 1 else 0) + count_terminators rest

/-- The state invariant of a participant's buffer: the count of valid bytes
never exceeds the allocated capacity, and a buffer that has ever been
allocated has capacity at least `buffer_chunk_size` (capacities are
`buffer_chunk_size * 2 ^ k`). -/
def capacity_inv (p : Participant) : Prop :=
  p.buffer.length ≤ p.max_length ∧
    (p.max_length ≠ 0 → buffer_chunk_size ≤ p.max_length)

/-- Per-receive window constraint: each `recv` of the drain loop is called
with count `max_length - length` after the growth step (TAKtick.c line 344)
and returns at most that many bytes.  `window_fits p events` states that
every positive receive in the event list fits the window of the state at
which that receive occurs; every trace of actual `recv` results satisfies
it. -/
def window_fits : Participant → List RecvResult → Prop
  | _, [] => True
  | p, RecvResult.data chunk :: rest =>
      chunk.length
          ≤ grow_max_length p.buffer.length p.max_length - p.buffer.length ∧
      window_fits (drain_step p (RecvResult.data chunk)).1 rest
  | _, RecvResult.wouldBlock :: _ => True
  | _, RecvResult.orderlyClose :: _ => True
  | _, RecvResult.ioError :: _ => True

/-- The fresh entry created by `add_participant` (TAKtick.c lines 248-254):
`memset` to zero, then `closed = false`, `max_length = length = 0`,
`buffer = NULL`. -/
def new_participant (participant_socket : Int) : Participant :=
  { socket := participant_socket, closed := false, buffer := [], max_length := 0 }

/-- Model of `add_participant` (TAKtick.c lines 212-262) after `accept` returned
`participant_socket`: return unchanged when `accept` failed
(`participant_socket <= 0`), or when the search loop (lines 230-244) finds an
entry with the same socket; otherwise append a fresh entry at the tail
(`prev_pnt` is the last node after the search, lines 256-259) and increment
`participant_count`. -/
def add_participant (participant_socket : Int) (ctx : ServerContext) : ServerContext :=
  if participant_socket ≤ 0 then ctx
  else if ctx.participant_list.any (fun p => p.socket == participant_socket) then ctx
  else
    { participant_list := ctx.participant_list ++ [new_participant participant_socket],
      participant_count := ctx.participant_count + 1 }

/-- The unlink loop of `terminate_participants` (TAKtick.c lines 271-299) on
the participant list: each node with `closed || force_all` is unlinked (the
predecessor pointer, or the list base, is redirected past it), every other
node is kept; the traversal order is preserved. -/
def terminate_list (force_all : Bool) : List Participant → List Participant
  | [] => []
  | p :: rest =>
      if p.closed || force_all then terminate_list force_all rest
      else p :: terminate_list force_all rest

/-- The number of nodes the unlink loop removes, i.e. the number of times
`ctx->participant_count--` runs (TAKtick.c line 283). -/
def terminate_removed (force_all : Bool) : List Participant → Nat
  | [] => 0
  | p :: rest =>
      (if p.closed || force_all then 1 else 0) + terminate_removed force_all rest

/-- Model of `terminate_participants` (TAKtick.c lines 264-300): remove every
participant with `closed` (or all of them when `force_all`), decrementing
`participant_count` once per removal. -/
def terminate_participants (ctx : ServerContext) (force_all : Bool) : ServerContext :=
  { participant_list := terminate_list force_all ctx.participant_list,
    participant_count :=
      ctx.participant_count - (terminate_removed force_all ctx.participant_list : Int) }

/-- The loop of `share_data` (TAKtick.c lines 417-432): walk the whole list;
for each node issue `send(pnt->socket, buffer, length, ...)` — modelled by
the outcome oracle `out` — and set `closed = true` exactly when the outcome
is `<= 0`.  The second component records every attempted send, in order, as
the targeted participant (as observed at send time) paired with the full
payload. -/
def share_data (msg : List Char) (out : Participant → Int) :
    List Participant → List Participant × List (Participant × List Char)
  | [] => ([], [])
  | p :: rest =>
      let p' := if out p ≤ 0 then { p with closed := true } else p
      match share_data msg out rest with
      | (l', att) => (p' :: l', (p, msg) :: att)

/-- Model of `parse_data` (TAKtick.c lines 329-372) as run by the event loop for the
participant at position `i` of the registry: the drain loop of `drain_step`,
but each emitted message is immediately broadcast with `share_data` to the
whole current registry (TAKtick.c line 364), which may flip `closed` flags of
any participant — including `i` itself — before the loop continues.  Returns
the updated registry and all send attempts made. -/
def parse_data_svc (out : Participant → Int) (i : Nat) :
    List Participant → List RecvResult → List Participant × List (Participant × List Char)
  | l, [] => (l, [])
  | l, r :: rest =>
      match l[i]? with
      | none => (l, [])
      | some p =>
          let p₁ : Participant :=
            { p with max_length := grow_max_length p.buffer.length p.max_length }
          match r with
          | .wouldBlock => (l.set i p₁, [])
          | .orderlyClose => (l.set i { p₁ with closed := true }, [])
          | .ioError => (l.set i { p₁ with closed := true }, [])
          | .data chunk =>
              if chunk.length = 0 then (l.set i { p₁ with closed := true }, [])
              else
                match parse_receive p₁ chunk with
                | (p₂, some m) =>
                    match share_data m out (l.set i p₂) with
                    | (l', att) =>
                        match parse_data_svc out i l' rest with
                        | (l'', att') => (l'', att ++ att')
                | (p₂, none) => parse_data_svc out i (l.set i p₂) rest

/-- The first pass of `service_participants` (TAKtick.c lines 311-319): walk
the registry positions in order; whenever `FD_ISSET` reports the socket ready
(`ready`), run `parse_data` for that entry.  `evs sock` is the sequence of
`recv` results socket `sock` will produce. -/
def service_visits (ready : Int → Bool) (evs : Int → List RecvResult)
    (out : Participant → Int) :
    List Nat → List Participant → List Participant × List (Participant × List Char)
  | [], l => (l, [])
  | i :: is, l =>
      match l[i]? with
      | none => service_visits ready evs out is l
      | some p =>
          if ready p.socket then
            match parse_data_svc out i l (evs p.socket) with
            | (l', att) =>
                match service_visits ready evs out is l' with
                | (l'', att') => (l'', att ++ att')
          else service_visits ready evs out is l

/-- Model of `service_participants` (TAKtick.c lines 302-327): the read pass over all
registry positions followed by the closing pass `terminate_participants(ctx,
false)` (line 326).  Also returns every send attempt of the pass. -/
def service_participants (ready : Int → Bool) (evs : Int → List RecvResult)
    (out : Participant → Int) (ctx : ServerContext) :
    ServerContext × List (Participant × List Char) :=
  match service_visits ready evs out
      (List.range ctx.participant_list.length) ctx.participant_list with
  | (l', att) =>
      (terminate_participants { ctx with participant_list := l' } false, att)

/-! ### Helper lemmas -/

theorem isPrefixOf_eq_take {l₁ : List Char} :
    ∀ {l₂ : List Char}, l₁.isPrefixOf l₂ = true → l₂.take l₁.length = l₁ := by
  induction l₁ with
  | nil => intro l₂ _; simp
  | cons a as ih =>
    intro l₂ h
    cases l₂ with
    | nil => simp [List.isPrefixOf] at h
    | cons b bs =>
      simp only [List.isPrefixOf, Bool.and_eq_true, beq_iff_eq] at h
      obtain ⟨rfl, h2⟩ := h
      simp [ih h2]

theorem memmem_from_spec (needle : List Char) :
    ∀ (hay : List Char) (idx i : Nat), memmem_from needle hay idx = some i →
      idx ≤ i ∧ (i - idx) + needle.length ≤ hay.length ∧
        (hay.drop (i - idx)).take needle.length = needle := by
  intro hay
  induction hay with
  | nil =>
    intro idx i h
    simp only [memmem_from] at h
    split at h
    · rename_i hlen
      obtain rfl : idx = i := Option.some.inj h
      refine ⟨le_refl _, by simp [hlen], ?_⟩
      rw [List.length_eq_zero] at hlen
      simp [hlen]
    · exact absurd h (by simp)
  | cons a t ih =>
    intro idx i h
    simp only [memmem_from] at h
    split at h
    · rename_i hlen
      split at h
      · rename_i hpre
        obtain rfl : idx = i := Option.some.inj h
        exact ⟨le_refl _, by simpa using hlen, by simpa using isPrefixOf_eq_take hpre⟩
      · obtain ⟨h1, h2, h3⟩ := ih (idx + 1) i h
        refine ⟨by omega, ?_, ?_⟩
        · simp only [List.length_cons]
          omega
        · have hdrop : i - idx = (i - (idx + 1)) + 1 := by omega
          rw [hdrop, List.drop_succ_cons]
          exact h3
    · exact absurd h (by simp)

theorem memmem_spec {haystack needle : List Char} {i : Nat}
    (h : memmem haystack needle = some i) :
    i + needle.length ≤ haystack.length ∧
      (haystack.drop i).take needle.length = needle := by
  unfold memmem at h
  split at h
  · exact absurd h (by simp)
  · obtain ⟨_, h2, h3⟩ := memmem_from_spec needle haystack 0 i h
    simpa using ⟨h2, h3⟩

theorem scan_onset_le (n : Nat) : scan_onset n ≤ n := by
  unfold scan_onset
  split <;> omega

theorem parse_receive_conserves (p : Participant) (chunk : List Char) :
    ((parse_receive p chunk).2.getD []) ++ (parse_receive p chunk).1.buffer
      = p.buffer ++ chunk := by
  unfold parse_receive
  cases h : memmem ((p.buffer ++ chunk).drop (scan_onset p.buffer.length))
      terminator_string with
  | none => simp
  | some i => simp [List.take_append_drop]

theorem parse_receive_fields (p : Participant) (chunk : List Char) :
    (parse_receive p chunk).1.closed = p.closed ∧
      (parse_receive p chunk).1.socket = p.socket ∧
      (parse_receive p chunk).1.max_length = p.max_length := by
  unfold parse_receive
  cases h : memmem ((p.buffer ++ chunk).drop (scan_onset p.buffer.length))
      terminator_string with
  | none => exact ⟨rfl, rfl, rfl⟩
  | some i => exact ⟨rfl, rfl, rfl⟩

theorem parse_receive_buffer_le (p : Participant) (chunk : List Char) :
    (parse_receive p chunk).1.buffer.length ≤ p.buffer.length + chunk.length := by
  unfold parse_receive
  cases h : memmem ((p.buffer ++ chunk).drop (scan_onset p.buffer.length))
      terminator_string with
  | none => simp
  | some i =>
    simp only [List.length_drop, List.length_append]
    omega

theorem parse_receive_ends_terminator (p : Participant) (chunk m : List Char)
    (h : (parse_receive p chunk).2 = some m) :
    terminator_length ≤ m.length ∧
      m.drop (m.length - terminator_length) = terminator_string := by
  unfold parse_receive at h
  cases hm : memmem ((p.buffer ++ chunk).drop (scan_onset p.buffer.length))
      terminator_string with
  | none => rw [hm] at h; exact absurd h (by simp)
  | some i =>
    rw [hm] at h
    obtain rfl : (p.buffer ++ chunk).take
        (scan_onset p.buffer.length + i + terminator_length) = m := Option.some.inj h
    obtain ⟨hlen, htake⟩ := memmem_spec hm
    have hterm : terminator_string.length = terminator_length := by decide
    have honset : scan_onset p.buffer.length ≤ (p.buffer ++ chunk).length := by
      have := scan_onset_le p.buffer.length
      simp only [List.length_append]
      omega
    rw [List.length_drop, hterm] at hlen
    have hsize : scan_onset p.buffer.length + i + terminator_length
        ≤ (p.buffer ++ chunk).length := by omega
    have hmlen : ((p.buffer ++ chunk).take
        (scan_onset p.buffer.length + i + terminator_length)).length
        = scan_onset p.buffer.length + i + terminator_length := by
      rw [List.length_take]
      omega
    constructor
    · rw [hmlen]; omega
    · rw [hmlen]
      have hsub : scan_onset p.buffer.length + i + terminator_length - terminator_length
          = scan_onset p.buffer.length + i := by omega
      rw [hsub, List.drop_take]
      have hdd : (p.buffer ++ chunk).drop (scan_onset p.buffer.length + i)
          = ((p.buffer ++ chunk).drop (scan_onset p.buffer.length)).drop i := by
        rw [List.drop_drop, Nat.add_comm]
      have hsub2 : scan_onset p.buffer.length + i + terminator_length
          - (scan_onset p.buffer.length + i) = terminator_length := by omega
      rw [hsub2, hdd, ← hterm, htake]

theorem drain_cycle_wouldBlock_eq (p : Participant) (rest : List RecvResult) :
    drain_cycle p (RecvResult.wouldBlock :: rest)
      = ({ p with max_length := grow_max_length p.buffer.length p.max_length }, []) := rfl

theorem drain_cycle_orderlyClose_eq (p : Participant) (rest : List RecvResult) :
    drain_cycle p (RecvResult.orderlyClose :: rest)
      = ({ p with closed := true, max_length := grow_max_length p.buffer.length p.max_length }, []) := rfl

theorem drain_cycle_ioError_eq (p : Participant) (rest : List RecvResult) :
    drain_cycle p (RecvResult.ioError :: rest)
      = ({ p with closed := true, max_length := grow_max_length p.buffer.length p.max_length }, []) := rfl

theorem drain_cycle_data_zero_eq (p : Participant) (chunk : List Char)
    (rest : List RecvResult) (h : chunk.length = 0) :
    drain_cycle p (RecvResult.data chunk :: rest)
      = ({ p with closed := true, max_length := grow_max_length p.buffer.length p.max_length }, []) := by
  simp [drain_cycle, drain_step, h]

theorem drain_cycle_data_eq (p : Participant) (chunk : List Char)
    (rest : List RecvResult) (h : ¬ chunk.length = 0) :
    drain_cycle p (RecvResult.data chunk :: rest)
      = ((drain_cycle (parse_receive
            { p with max_length := grow_max_length p.buffer.length p.max_length }
            chunk).1 rest).1,
         (parse_receive
            { p with max_length := grow_max_length p.buffer.length p.max_length }
            chunk).2.toList
          ++ (drain_cycle (parse_receive
            { p with max_length := grow_max_length p.buffer.length p.max_length }
            chunk).1 rest).2) := by
  simp [drain_cycle, drain_step, h]

theorem option_toList_flatten (o : Option (List Char)) : o.toList.flatten = o.getD [] := by
  cases o <;> simp

theorem drain_cycle_conserves :
    ∀ (events : List RecvResult) (p : Participant),
      ((drain_cycle p events).2).flatten ++ (drain_cycle p events).1.buffer
        = p.buffer ++ consumed_input events := by
  intro events
  induction events with
  | nil => intro p; simp [drain_cycle, consumed_input]
  | cons r rest ih =>
    intro p
    cases r with
    | wouldBlock => simp [drain_cycle_wouldBlock_eq, consumed_input]
    | orderlyClose => simp [drain_cycle_orderlyClose_eq, consumed_input]
    | ioError => simp [drain_cycle_ioError_eq, consumed_input]
    | data chunk =>
      by_cases h : chunk.length = 0
      · rw [drain_cycle_data_zero_eq p chunk rest h]
        simp [consumed_input, h]
      · rw [drain_cycle_data_eq p chunk rest h]
        simp only [consumed_input, if_neg h, List.flatten_append, List.append_assoc]
        rw [ih]
        rw [option_toList_flatten, ← List.append_assoc]
        have hbuf : ({ p with
            max_length := grow_max_length p.buffer.length p.max_length }
              : Participant).buffer = p.buffer := rfl
        rw [parse_receive_conserves, hbuf, List.append_assoc]

theorem drain_cycle_messages_end :
    ∀ (events : List RecvResult) (p : Participant) (m : List Char),
      m ∈ (drain_cycle p events).2 →
      terminator_length ≤ m.length ∧
        m.drop (m.length - terminator_length) = terminator_string := by
  intro events
  induction events with
  | nil => intro p m hm; simp [drain_cycle] at hm
  | cons r rest ih =>
    intro p m hm
    cases r with
    | wouldBlock => simp [drain_cycle_wouldBlock_eq] at hm
    | orderlyClose => simp [drain_cycle_orderlyClose_eq] at hm
    | ioError => simp [drain_cycle_ioError_eq] at hm
    | data chunk =>
      by_cases h : chunk.length = 0
      · simp [drain_cycle_data_zero_eq p chunk rest h] at hm
      · rw [drain_cycle_data_eq p chunk rest h] at hm
        simp only [List.mem_append] at hm
        rcases hm with hm | hm
        · cases ho : (parse_receive { p with
              max_length := grow_max_length p.buffer.length p.max_length }
                chunk).2 with
          | none => rw [ho] at hm; simp at hm
          | some m' =>
            rw [ho] at hm
            simp only [Option.toList_some, List.mem_singleton] at hm
            subst hm
            exact parse_receive_ends_terminator _ chunk m ho
        · exact ih _ m hm

theorem drain_cycle_count_le :
    ∀ (events : List RecvResult) (p : Participant),
      (drain_cycle p events).2.length ≤ data_event_count events := by
  intro events
  induction events with
  | nil => intro p; simp [drain_cycle, data_event_count]
  | cons r rest ih =>
    intro p
    cases r with
    | wouldBlock => simp [drain_cycle_wouldBlock_eq, data_event_count]
    | orderlyClose => simp [drain_cycle_orderlyClose_eq, data_event_count]
    | ioError => simp [drain_cycle_ioError_eq, data_event_count]
    | data chunk =>
      by_cases h : chunk.length = 0
      · simp [drain_cycle_data_zero_eq p chunk rest h, data_event_count, h]
      · rw [drain_cycle_data_eq p chunk rest h]
        simp only [data_event_count, if_neg h, List.length_append]
        have h1 : (parse_receive { p with
            max_length := grow_max_length p.buffer.length p.max_length }
              chunk).2.toList.length ≤ 1 := by
          cases (parse_receive { p with
            max_length := grow_max_length p.buffer.length p.max_length }
              chunk).2 <;> simp
        have h2 := ih (parse_receive { p with
            max_length := grow_max_length p.buffer.length p.max_length } chunk).1
        omega

theorem grow_max_length_spec (len cap : Nat) (h1 : len ≤ cap)
    (h2 : cap ≠ 0 → buffer_chunk_size ≤ cap) :
    len + buffer_chunk_size ≤ grow_max_length len cap ∧
      buffer_chunk_size ≤ grow_max_length len cap := by
  unfold grow_max_length
  by_cases hc : cap = 0
  · subst hc
    have hl : len = 0 := Nat.le_zero.mp h1
    subst hl
    simp
  · have hC := h2 hc
    by_cases hg : len + buffer_chunk_size > cap
    · rw [if_pos (Or.inr hg), if_neg hc]
      omega
    · rw [if_neg]
      · omega
      · push_neg
        exact ⟨hc, by omega⟩

theorem drain_step_data_fst (p : Participant) (chunk : List Char)
    (h : ¬ chunk.length = 0) :
    (drain_step p (RecvResult.data chunk)).1
      = (parse_receive
          { p with max_length := grow_max_length p.buffer.length p.max_length }
          chunk).1 := by
  simp [drain_step, h]

theorem window_fits_take :
    ∀ (events : List RecvResult) (p : Participant) (k : Nat),
      window_fits p events → window_fits p (events.take k) := by
  intro events
  induction events with
  | nil =>
    intro p k _
    rw [List.take_nil]
    trivial
  | cons r rest ih =>
    intro p k hw
    cases k with
    | zero => trivial
    | succ k' =>
      rw [List.take_succ_cons]
      cases r with
      | data chunk =>
        obtain ⟨h1, h2⟩ := hw
        exact ⟨h1, ih _ k' h2⟩
      | wouldBlock => trivial
      | orderlyClose => trivial
      | ioError => trivial

theorem capacity_inv_cycle :
    ∀ (events : List RecvResult) (p : Participant),
      capacity_inv p → window_fits p events →
      capacity_inv (drain_cycle p events).1 := by
  intro events
  induction events with
  | nil => intro p hp _; exact hp
  | cons r rest ih =>
    intro p hp hw
    obtain ⟨hg1, hg2⟩ := grow_max_length_spec p.buffer.length p.max_length hp.1 hp.2
    cases r with
    | wouldBlock =>
      rw [drain_cycle_wouldBlock_eq]
      exact ⟨by simp; omega, fun _ => by simpa using hg2⟩
    | orderlyClose =>
      rw [drain_cycle_orderlyClose_eq]
      exact ⟨by simp; omega, fun _ => by simpa using hg2⟩
    | ioError =>
      rw [drain_cycle_ioError_eq]
      exact ⟨by simp; omega, fun _ => by simpa using hg2⟩
    | data chunk =>
      by_cases h : chunk.length = 0
      · rw [drain_cycle_data_zero_eq p chunk rest h]
        exact ⟨by simp; omega, fun _ => by simpa using hg2⟩
      · obtain ⟨hwin, hwrest⟩ := hw
        rw [drain_cycle_data_eq p chunk rest h]
        apply ih
        · constructor
          · have hble := parse_receive_buffer_le
              { p with max_length := grow_max_length p.buffer.length p.max_length } chunk
            have hmax := (parse_receive_fields
              { p with max_length := grow_max_length p.buffer.length p.max_length }
              chunk).2.2
            simp only [hmax]
            simp only at hble
            simp
            omega
          · have hmax := (parse_receive_fields
              { p with max_length := grow_max_length p.buffer.length p.max_length }
              chunk).2.2
            rw [hmax]
            intro _
            simpa using hg2
        · rw [← drain_step_data_fst p chunk h]
          exact hwrest

theorem share_data_eq (msg : List Char) (out : Participant → Int) :
    ∀ l : List Participant,
      share_data msg out l
        = (l.map (fun p => if out p ≤ 0 then { p with closed := true } else p),
           l.map (fun p => (p, msg))) := by
  intro l
  induction l with
  | nil => rfl
  | cons p rest ih => simp [share_data, ih]

theorem terminate_list_mem_closed :
    ∀ (l : List Participant) (q : Participant),
      q ∈ terminate_list false l → q.closed = false := by
  intro l
  induction l with
  | nil => intro q hq; simp [terminate_list] at hq
  | cons p rest ih =>
    intro q hq
    by_cases hc : p.closed = true
    · rw [terminate_list] at hq
      simp only [hc, Bool.true_or, if_pos] at hq
      exact ih q hq
    · have hc' : p.closed = false := by simpa using hc
      rw [terminate_list] at hq
      simp only [hc', Bool.false_or, if_neg, Bool.false_eq_true, not_false_iff] at hq
      rcases List.mem_cons.mp hq with rfl | hq
      · exact hc'
      · exact ih q hq

theorem terminate_list_idem (l : List Participant) :
    terminate_list false (terminate_list false l) = terminate_list false l := by
  induction l with
  | nil => rfl
  | cons p rest ih =>
    by_cases hc : p.closed = true
    · simp [terminate_list, hc, ih]
    · have hc' : p.closed = false := by simpa using hc
      simp [terminate_list, hc', ih]

theorem terminate_removed_after (l : List Participant) :
    terminate_removed false (terminate_list false l) = 0 := by
  induction l with
  | nil => rfl
  | cons p rest ih =>
    by_cases hc : p.closed = true
    · simp [terminate_list, hc, ih]
    · have hc' : p.closed = false := by simpa using hc
      simp [terminate_list, terminate_removed, hc', ih]

theorem share_data_closed_at (msg : List Char) (out : Participant → Int)
    (l : List Participant) (j : Nat) (q : Participant)
    (hj : l[j]? = some q) (hq : q.closed = true) :
    ∃ q', (share_data msg out l).1[j]? = some q' ∧ q'.closed = true := by
  rw [share_data_eq]
  refine ⟨if out q ≤ 0 then { q with closed := true } else q, ?_, ?_⟩
  · simp [List.getElem?_map, hj]
  · by_cases h : out q ≤ 0 <;> simp [h, hq]

theorem set_closed_at (l : List Participant) (i j : Nat) (x q : Participant)
    (hj : l[j]? = some q) (hq : q.closed = true)
    (hx : j = i → x.closed = true) :
    ∃ q', (l.set i x)[j]? = some q' ∧ q'.closed = true := by
  by_cases hij : j = i
  · subst hij
    have hlt : j < l.length := by
      by_contra hcon
      rw [List.getElem?_eq_none (by omega)] at hj
      exact Option.noConfusion hj
    exact ⟨x, List.getElem?_set_self hlt, hx rfl⟩
  · exact ⟨q, by rw [List.getElem?_set_ne (fun h => hij h.symm)]; exact hj, hq⟩

theorem parse_data_svc_closed_at (out : Participant → Int) (i : Nat) :
    ∀ (events : List RecvResult) (l : List Participant) (j : Nat) (q : Participant),
      l[j]? = some q → q.closed = true →
      ∃ q', (parse_data_svc out i l events).1[j]? = some q' ∧ q'.closed = true := by
  intro events
  induction events with
  | nil => intro l j q hj hq; exact ⟨q, hj, hq⟩
  | cons r rest ih =>
    intro l j q hj hq
    cases hgi : l[i]? with
    | none =>
      simp only [parse_data_svc, hgi]
      exact ⟨q, hj, hq⟩
    | some p =>
      have hpq : j = i → p.closed = true := by
        intro hij
        subst hij
        rw [hj] at hgi
        obtain rfl := Option.some.inj hgi
        exact hq
      cases r with
      | wouldBlock =>
        simp only [parse_data_svc, hgi]
        exact set_closed_at l i j _ q hj hq (fun hij => hpq hij)
      | orderlyClose =>
        simp only [parse_data_svc, hgi]
        exact set_closed_at l i j _ q hj hq (fun _ => rfl)
      | ioError =>
        simp only [parse_data_svc, hgi]
        exact set_closed_at l i j _ q hj hq (fun _ => rfl)
      | data chunk =>
        by_cases hz : chunk.length = 0
        · simp only [parse_data_svc, hgi, if_pos hz]
          exact set_closed_at l i j _ q hj hq (fun _ => rfl)
        · have hcl : (parse_receive
              { p with max_length := grow_max_length p.buffer.length p.max_length }
              chunk).1.closed = p.closed :=
            (parse_receive_fields _ chunk).1
          cases hpr : parse_receive
              { p with max_length := grow_max_length p.buffer.length p.max_length }
              chunk with
          | mk p₂ mo =>
            have hp₂ : j = i → p₂.closed = true := by
              intro hij
              have : p₂.closed = p.closed := by rw [← hcl, hpr]
              rw [this]
              exact hpq hij
            obtain ⟨q₁, hq₁, hq₁c⟩ := set_closed_at l i j p₂ q hj hq hp₂
            cases mo with
            | none =>
              simp only [parse_data_svc, hgi, if_neg hz, hpr]
              exact ih (l.set i p₂) j q₁ hq₁ hq₁c
            | some m =>
              obtain ⟨q₂, hq₂, hq₂c⟩ := share_data_closed_at m out (l.set i p₂) j q₁ hq₁ hq₁c
              simp only [parse_data_svc, hgi, if_neg hz, hpr]
              cases hsh : share_data m out (l.set i p₂) with
              | mk l' att =>
                rw [hsh] at hq₂
                cases hrec : parse_data_svc out i l' rest with
                | mk l'' att' =>
                  obtain ⟨q₃, hq₃, hq₃c⟩ := ih l' j q₂ hq₂ hq₂c
                  rw [hrec] at hq₃
                  exact ⟨q₃, hq₃, hq₃c⟩

theorem service_visits_closed_at (ready : Int → Bool) (evs : Int → List RecvResult)
    (out : Participant → Int) :
    ∀ (is : List Nat) (l : List Participant) (j : Nat) (q : Participant),
      l[j]? = some q → q.closed = true →
      ∃ q', (service_visits ready evs out is l).1[j]? = some q' ∧ q'.closed = true := by
  intro is
  induction is with
  | nil => intro l j q hj hq; exact ⟨q, hj, hq⟩
  | cons i irest ih =>
    intro l j q hj hq
    cases hgi : l[i]? with
    | none =>
      simp only [service_visits, hgi]
      exact ih l j q hj hq
    | some p =>
      by_cases hr : ready p.socket
      · simp only [service_visits, hgi, if_pos hr]
        obtain ⟨q₁, hq₁, hq₁c⟩ :=
          parse_data_svc_closed_at out i (evs p.socket) l j q hj hq
        cases hpd : parse_data_svc out i l (evs p.socket) with
        | mk l' att =>
          rw [hpd] at hq₁
          obtain ⟨q₂, hq₂, hq₂c⟩ := ih l' j q₁ hq₁ hq₁c
          cases hsv : service_visits ready evs out irest l' with
          | mk l'' att' =>
            rw [hsv] at hq₂
            exact ⟨q₂, hq₂, hq₂c⟩
      · simp only [service_visits, hgi, if_neg hr]
        exact ih l j q hj hq

theorem service_participants_list_eq (ready : Int → Bool) (evs : Int → List RecvResult)
    (out : Participant → Int) (ctx : ServerContext) :
    (service_participants ready evs out ctx).1.participant_list
      = terminate_list false (service_visits ready evs out
          (List.range ctx.participant_list.length) ctx.participant_list).1 := by
  unfold service_participants
  cases service_visits ready evs out
      (List.range ctx.participant_list.length) ctx.participant_list with
  | mk l' att => rfl

/-! ### Claims -/

/-- C1, counterexample: a single chunk whose bytes contain exactly `K = 2`
terminator occurrences is drained in one pass that emits only `1` message,
because `parse_data` runs at most one terminator extraction per successful
receive (an `if`, not a loop, at TAKtick.c line 361); the claim "one pass
... emits exactly K messages" is therefore false. -/
theorem C1_counterexample :
    count_terminators ("a</event>b</event>".toList) = 2 ∧
    (drain_cycle ⟨1, false, [], 0⟩
      [RecvResult.data ("a</event>b</event>".toList), RecvResult.wouldBlock]).2.length
      = 1 := by decide

/-- C1, amended: over any sequence of receive results, every message the
drain cycle emits ends exactly at a terminator boundary (its last
`terminator_length` bytes are the terminator), no bytes are lost or
duplicated (the emitted messages followed by the residual buffer are exactly
the prior buffer followed by the consumed chunks), and at most one message is
emitted per successful receive — so a pass whose chunks contain `K`
terminators may emit fewer than `K` messages, the rest staying buffered
(possibly later coalesced into one emission). -/
theorem C1_amended_framing (p : Participant) (events : List RecvResult) :
    (∀ m ∈ (drain_cycle p events).2,
        terminator_length ≤ m.length ∧
          m.drop (m.length - terminator_length) = terminator_string) ∧
    ((drain_cycle p events).2.flatten ++ (drain_cycle p events).1.buffer
        = p.buffer ++ consumed_input events) ∧
    (drain_cycle p events).2.length ≤ data_event_count events :=
  ⟨fun m hm => drain_cycle_messages_end events p m hm,
   drain_cycle_conserves events p,
   drain_cycle_count_le events p⟩

/-- Witness for C1: the amended theorem evaluated on a concrete fresh
participant receiving `"hi</event>"` in one chunk. -/
theorem C1_witness :
    terminator_length ≤ ("hi</event>".toList).length ∧
      ("hi</event>".toList).drop (("hi</event>".toList).length - terminator_length)
        = terminator_string :=
  (C1_amended_framing ⟨1, false, [], 0⟩
      [RecvResult.data ("hi</event>".toList), RecvResult.wouldBlock]).1
    ("hi</event>".toList) (by decide)

/-- C2, counterexample: with two participants (sockets 1 and 2) both ready,
socket 1 delivering two complete messages and every send to socket 2
failing, the first broadcast marks participant 2 `closed`; yet the same
service pass still targets it with the second broadcast's send (an attempt
whose recorded target has `closed = true`) and still runs its drain cycle
(its buffer gains `"x"` while `closed` is already true).  So a closed
participant is used again for reads and broadcast targeting before
compaction, refuting the claim. -/
theorem C2_counterexample :
    (service_visits (fun _ => true)
      (fun s => if s == 1 then
          [RecvResult.data ("a</event>".toList), RecvResult.data ("b</event>".toList),
           RecvResult.wouldBlock]
        else if s == 2 then [RecvResult.data ("x".toList), RecvResult.wouldBlock]
        else [])
      (fun p => if p.socket == 2 then 0 else 1)
      (List.range 2) [⟨1, false, [], 0⟩, ⟨2, false, [], 0⟩]).1[1]?
      = some ⟨2, true, "x".toList, 131072⟩ ∧
    ((service_visits (fun _ => true)
      (fun s => if s == 1 then
          [RecvResult.data ("a</event>".toList), RecvResult.data ("b</event>".toList),
           RecvResult.wouldBlock]
        else if s == 2 then [RecvResult.data ("x".toList), RecvResult.wouldBlock]
        else [])
      (fun p => if p.socket == 2 then 0 else 1)
      (List.range 2) [⟨1, false, [], 0⟩, ⟨2, false, [], 0⟩]).2.any
        (fun a => a.1.closed)) = true := by decide

/-- C2, amended: once `closed` is true it is never reset during the service
pass (the flag is latched through every drain cycle and broadcast of the
pass), and the compaction that ends the pass removes every closed
participant, so the registry left for the next event-loop iteration contains
no closed entry; within the same pass, however, a closed participant may
still be polled for receive and targeted by broadcast sends. -/
theorem C2_amended_closed_latch (ready : Int → Bool) (evs : Int → List RecvResult)
    (out : Participant → Int) (ctx : ServerContext) (j : Nat) (q : Participant)
    (hj : ctx.participant_list[j]? = some q) (hq : q.closed = true) :
    (∃ q', (service_visits ready evs out
        (List.range ctx.participant_list.length) ctx.participant_list).1[j]? = some q'
        ∧ q'.closed = true) ∧
    (∀ p ∈ (service_participants ready evs out ctx).1.participant_list,
        p.closed = false) := by
  constructor
  · exact service_visits_closed_at ready evs out _ _ j q hj hq
  · intro p hp
    rw [service_participants_list_eq] at hp
    exact terminate_list_mem_closed _ p hp

/-- Witness for C2: the amended theorem evaluated on a registry holding one
already-closed participant. -/
theorem C2_witness :
    ∃ q', ((service_visits (fun _ => false) (fun _ => []) (fun _ => 1)
        (List.range 1) [⟨5, true, [], 0⟩]).1)[0]? = some q' ∧ q'.closed = true :=
  (C2_amended_closed_latch (fun _ => false) (fun _ => []) (fun _ => 1)
    ⟨[⟨5, true, [], 0⟩], 1⟩ 0 ⟨5, true, [], 0⟩ rfl rfl).1

/-- C3, counterexample: at `length_before = 9` the code's scan start is
`9 - terminator_length = 1`, not the claimed
`max(0, 9 - (terminator_length - 1)) = 2`. -/
theorem C3_counterexample :
    ¬ ((scan_onset 9 : Int) = max 0 ((9 : Int) - ((terminator_length : Int) - 1))) := by
  decide

/-- C3, amended: the terminator search of each extraction step begins at
`onset = max(0, length_before - terminator_length)` — one byte earlier than
the claimed `max(0, length_before - (terminator_length - 1))`. -/
theorem C3_amended_onset (length_before : Nat) :
    (scan_onset length_before : Int)
      = max 0 ((length_before : Int) - (terminator_length : Int)) := by
  simp only [scan_onset, terminator_length]
  split <;> omega

/-- C4: a broadcast attempts the send with the identical full byte range to
every participant of the registry, in order — including the message's
originator, and regardless of other participants' failures — and the updated
registry marks exactly those participants `closed` whose own outcome was
`≤ 0`, leaving every other entry untouched. -/
theorem C4_broadcast_isolation (msg : List Char) (out : Participant → Int)
    (l : List Participant) :
    (share_data msg out l).2 = l.map (fun p => (p, msg)) ∧
    (share_data msg out l).1
      = l.map (fun p => if out p ≤ 0 then { p with closed := true } else p) := by
  rw [share_data_eq]
  exact ⟨rfl, rfl⟩

/-- C5: before each receive, a zero (unset) capacity becomes
`buffer_chunk_size = 65536`; a nonzero capacity with
`length + buffer_chunk_size > capacity` is doubled, and is otherwise left
unchanged; growth never touches the buffered bytes, and every `drain_step`
performs exactly this growth before its receive. -/
theorem C5_growth_policy (len cap : Nat) (p : Participant) (r : RecvResult) :
    (cap = 0 → grow_max_length len cap = buffer_chunk_size) ∧
    (cap ≠ 0 → len + buffer_chunk_size > cap → grow_max_length len cap = cap * 2) ∧
    (cap ≠ 0 → len + buffer_chunk_size ≤ cap → grow_max_length len cap = cap) ∧
    ({ p with max_length := grow_max_length p.buffer.length p.max_length }
        : Participant).buffer = p.buffer ∧
    (drain_step p r).1.max_length = grow_max_length p.buffer.length p.max_length := by
  refine ⟨?_, ?_, ?_, rfl, ?_⟩
  · intro h; subst h; simp [grow_max_length]
  · intro h1 h2; rw [grow_max_length, if_pos (Or.inr h2), if_neg h1]
  · intro h1 h2
    rw [grow_max_length, if_neg]
    push_neg
    exact ⟨h1, by omega⟩
  · cases r with
    | wouldBlock => rfl
    | orderlyClose => rfl
    | ioError => rfl
    | data chunk =>
      by_cases hz : chunk.length = 0
      · simp [drain_step, hz]
      · simp only [drain_step, if_neg hz]
        cases hpr : parse_receive
            { p with max_length := grow_max_length p.buffer.length p.max_length }
            chunk with
        | mk p₂ m =>
          have hmax := (parse_receive_fields
            { p with max_length := grow_max_length p.buffer.length p.max_length }
            chunk).2.2
          rw [hpr] at hmax
          simp only [hpr]
          simpa using hmax

/-- Witness for C5: the growth policy evaluated at capacities 0 (fresh),
65536 with one buffered byte (doubling), and 131072 with room to spare
(unchanged). -/
theorem C5_witness :
    grow_max_length 0 0 = buffer_chunk_size ∧
      grow_max_length 1 65536 = 65536 * 2 ∧
      grow_max_length 0 131072 = 131072 :=
  ⟨(C5_growth_policy 0 0 ⟨1, false, [], 0⟩ RecvResult.wouldBlock).1 rfl,
   (C5_growth_policy 1 65536 ⟨1, false, [], 0⟩ RecvResult.wouldBlock).2.1
     (by decide) (by decide),
   (C5_growth_policy 0 131072 ⟨1, false, [], 0⟩ RecvResult.wouldBlock).2.2.1
     (by decide) (by decide)⟩

/-- C6: starting from any participant satisfying the capacity invariant
(in particular a fresh one), after any prefix of the drain cycle the number
of buffered bytes never exceeds the allocated capacity, given only that each
receive fits the window it is actually called with — `recv` is asked for
`max_length - length` bytes after growth (TAKtick.c line 344) and returns at
most that, so every real trace satisfies the hypothesis; moreover the growth
step itself preserves `length ≤ capacity`. -/
theorem C6_length_le_capacity (p : Participant) (events : List RecvResult)
    (hp : capacity_inv p) (hev : window_fits p events) :
    capacity_inv (drain_cycle p events).1 ∧
    (∀ k : Nat, (drain_cycle p (events.take k)).1.buffer.length
        ≤ (drain_cycle p (events.take k)).1.max_length) ∧
    (∀ len cap : Nat, len ≤ cap → len ≤ grow_max_length len cap) := by
  refine ⟨capacity_inv_cycle events p hp hev, ?_, ?_⟩
  · intro k
    exact (capacity_inv_cycle (events.take k) p hp
      (window_fits_take events p k hev)).1
  · intro len cap h
    rcases Nat.eq_zero_or_pos cap with hc | hc
    · subst hc
      have hl : len = 0 := Nat.le_zero.mp h
      subst hl
      exact Nat.zero_le _
    · by_cases hg : len + buffer_chunk_size > cap
      · rw [grow_max_length, if_pos (Or.inr hg), if_neg (by omega)]
        omega
      · rw [grow_max_length, if_neg (by push_neg; exact ⟨by omega, by omega⟩)]
        omega

/-- Witness for C6: the invariant evaluated after the first receive of a
fresh participant taking one chunk that fits the freshly grown window. -/
theorem C6_witness :
    (drain_cycle ⟨1, false, [], 0⟩
        ([RecvResult.data ("a".toList), RecvResult.wouldBlock].take 1)).1.buffer.length
      ≤ (drain_cycle ⟨1, false, [], 0⟩
        ([RecvResult.data ("a".toList), RecvResult.wouldBlock].take 1)).1.max_length := by
  have hp : capacity_inv ⟨1, false, [], 0⟩ := ⟨Nat.le_refl 0, fun h => absurd rfl h⟩
  have hev : window_fits ⟨1, false, [], 0⟩
      [RecvResult.data ("a".toList), RecvResult.wouldBlock] := ⟨by decide, trivial⟩
  exact (C6_length_le_capacity ⟨1, false, [], 0⟩
    [RecvResult.data ("a".toList), RecvResult.wouldBlock] hp hev).2.1 1

/-- C7: a would-block receive ends the drain cycle ignoring any further
events, with `closed` and the buffered bytes (hence the length) unchanged
and nothing emitted; a zero-byte receive or any other I/O error sets
`closed = true`, preserves the buffer, and likewise ends the cycle. -/
theorem C7_drain_termination (p : Participant) (rest : List RecvResult) :
    ((drain_cycle p (RecvResult.wouldBlock :: rest)).1.closed = p.closed ∧
     (drain_cycle p (RecvResult.wouldBlock :: rest)).1.buffer = p.buffer ∧
     (drain_cycle p (RecvResult.wouldBlock :: rest)).2 = [] ∧
     drain_cycle p (RecvResult.wouldBlock :: rest)
       = drain_cycle p [RecvResult.wouldBlock]) ∧
    ((drain_cycle p (RecvResult.orderlyClose :: rest)).1.closed = true ∧
     (drain_cycle p (RecvResult.orderlyClose :: rest)).1.buffer = p.buffer ∧
     drain_cycle p (RecvResult.orderlyClose :: rest)
       = drain_cycle p [RecvResult.orderlyClose]) ∧
    ((drain_cycle p (RecvResult.ioError :: rest)).1.closed = true ∧
     (drain_cycle p (RecvResult.ioError :: rest)).1.buffer = p.buffer ∧
     drain_cycle p (RecvResult.ioError :: rest)
       = drain_cycle p [RecvResult.ioError]) :=
  ⟨⟨rfl, rfl, rfl, rfl⟩, ⟨rfl, rfl, rfl⟩, ⟨rfl, rfl, rfl⟩⟩

/-- C8: compaction with `force_all = false` is idempotent — a second call on
the unchanged context removes nobody and returns the same registry and
count. -/
theorem C8_compaction_idem (ctx : ServerContext) :
    terminate_participants (terminate_participants ctx false) false
      = terminate_participants ctx false := by
  unfold terminate_participants
  simp [terminate_list_idem, terminate_removed_after]

/-- C9: adding an accepted connection whose socket is already in the
registry is a silent no-op (context and count unchanged, no error — the
operation is total); a new socket appends a participant with `closed = false`,
empty buffer (length 0), capacity 0, and increments the count by one. -/
theorem C9_add_dedup (s : Int) (ctx : ServerContext) (hs : 0 < s) :
    (ctx.participant_list.any (fun p => p.socket == s) = true →
        add_participant s ctx = ctx) ∧
    (ctx.participant_list.any (fun p => p.socket == s) = false →
        (add_participant s ctx).participant_list
            = ctx.participant_list
              ++ [{ socket := s, closed := false, buffer := [], max_length := 0 }] ∧
        (add_participant s ctx).participant_count = ctx.participant_count + 1) := by
  unfold add_participant new_participant
  rw [if_neg (by omega)]
  constructor
  · intro h
    rw [if_pos h]
  · intro h
    rw [if_neg (by simp [h])]
    exact ⟨rfl, rfl⟩

/-- Witness for C9: a duplicate add is a no-op; a fresh add appends the
zeroed participant and bumps the count. -/
theorem C9_witness :
    add_participant 3 ⟨[⟨3, false, [], 0⟩], 1⟩ = ⟨[⟨3, false, [], 0⟩], 1⟩ ∧
    (add_participant 3 ⟨[], 0⟩).participant_list
        = [{ socket := 3, closed := false, buffer := [], max_length := 0 }] ∧
    (add_participant 3 ⟨[], 0⟩).participant_count = 1 :=
  ⟨(C9_add_dedup 3 ⟨[⟨3, false, [], 0⟩], 1⟩ (by decide)).1 (by decide),
   (C9_add_dedup 3 ⟨[], 0⟩ (by decide)).2 rfl⟩

/-- C10: during a broadcast, a participant whose send outcome is strictly
positive is left entirely unchanged (in particular a positive-but-short
outcome does not set `closed`, which only an outcome `≤ 0` does), and the
broadcast performs exactly one send per registry entry, each carrying the
complete message — there is no state in which an untransmitted remainder
could be recorded, so it is never re-sent. -/
theorem C10_partial_send (msg : List Char) (out : Participant → Int)
    (l : List Participant) (i : Nat) (p : Participant)
    (hi : l[i]? = some p) (hpos : 0 < out p) :
    (share_data msg out l).1[i]? = some p ∧
    (share_data msg out l).2[i]? = some (p, msg) ∧
    (share_data msg out l).2.length = l.length := by
  rw [share_data_eq]
  refine ⟨?_, ?_, ?_⟩
  · rw [List.getElem?_map, hi]
    have hneg : ¬ out p ≤ 0 := by omega
    simp [hneg]
  · rw [List.getElem?_map, hi]
    rfl
  · simp

/-- Witness for C10: a singleton registry whose send succeeds with outcome 1
(shorter than the two-byte message). -/
theorem C10_witness :
    (share_data ("mm".toList) (fun _ => 1) [⟨7, false, [], 0⟩]).1[0]?
        = some ⟨7, false, [], 0⟩ ∧
    (share_data ("mm".toList) (fun _ => 1) [⟨7, false, [], 0⟩]).2[0]?
        = some (⟨7, false, [], 0⟩, "mm".toList) ∧
    (share_data ("mm".toList) (fun _ => 1) [⟨7, false, [], 0⟩]).2.length = 1 :=
  C10_partial_send ("mm".toList) (fun _ => 1) [⟨7, false, [], 0⟩] 0
    ⟨7, false, [], 0⟩ rfl (by decide)

end TAKtick
